import Mathlib

/-!
Verification of the tile classification and geospatial mapping pipeline
implemented in `simple.py`.

Embedding conventions:
* Python strings are modelled as `List Char`; Python integers as `Int`,
  with Python's floor division `//` and modulus `%` modelled by
  `Int.fdiv` and `Int.fmod` (both use the flooring convention, exactly
  as Python does).
* Python dicts are association lists `List (String × PyVal)` together
  with an `update` operation reproducing `dict.update` semantics
  (existing keys keep their position and get the new value, new keys are
  appended in iteration order).
* A Python exception aborting the run is modelled by `Except PyError`.
* External collaborators (`image_operations`, `gis_operations`,
  `xml_operations`, `file_operations`, `csv_operations`) are parameters:
  they enter as function arguments or fields of an environment record,
  never as stubs of code that lives in `simple.py` itself.
-/

/-- Kinds of Python exception the embedded code can raise:
division by zero (`width // grid_size` or `idx // per_row` with a zero
divisor), `int()` on a non-numeric string, and indexing past the end of
a `split` result. -/
inductive PyError : Type where
  | zeroDivision : PyError
  | valueError : PyError
  | indexError : PyError
deriving DecidableEq

/-- Python's `str.split(sep)` for a one-character separator, acting on
`List Char`.  Mirrors CPython: `"a_b".split("_") = ["a", "b"]`,
`"".split("_") = [""]`, `"a__b".split("_") = ["a", "", "b"]`. -/
def splitOnChar (sep : Char) : List Char → List (List Char)
  | [] => [[]]
  | c :: cs =>
    let r := splitOnChar sep cs
    if c = sep then [] :: r else (c :: r.headI) :: r.tail

/-- The whitespace characters stripped by Python's `int()`. -/
def isPySpace (c : Char) : Bool :=
  c == ' ' || c == '\t' || c == '\n' || c == '\r' || c == '\x0b' || c == '\x0c'

/-- `str.strip()` as used implicitly by Python's `int()`. -/
def pyStrip (l : List Char) : List Char :=
  ((l.dropWhile isPySpace).reverse.dropWhile isPySpace).reverse

/-- Numeric value of a list of ASCII decimal digits. -/
def digitsVal (l : List Char) : Int :=
  l.foldl (fun acc c => acc * 10 + ((c.toNat : Int) - 48)) 0

def parseDigits (l : List Char) : Except PyError Int :=
  if l.isEmpty then .error .valueError
  else if l.all Char.isDigit then .ok (digitsVal l)
  else .error .valueError

/-- Python 2's `int(s)` restricted to ASCII input: strip whitespace,
allow one optional sign, then require a nonempty run of decimal digits;
anything else raises `ValueError`. -/
def parseInt (l : List Char) : Except PyError Int :=
  match pyStrip l with
  | [] => .error .valueError
  | c :: rest =>
    if c = '-' then Except.map (fun n => -n) (parseDigits rest)
    else if c = '+' then parseDigits rest
    else parseDigits (c :: rest)

/-- `int(filename.split("_")[1].split(".")[0])` from `index_to_location`
(`simple.py` line 186).  `split("_")[1]` raises `IndexError` when the
name has no underscore; `split(".")[0]` always exists. -/
def parseIdx (f : List Char) : Except PyError Int :=
  match splitOnChar '_' f with
  | _ :: s :: _ => parseInt ((splitOnChar '.' s).headI)
  | _ => .error .indexError

/-- `index_to_location(filename, width, grid_size)` (`simple.py` lines
184–190):
```
per_row = width // grid_size + 1
idx = int(filename.split("_")[1].split(".")[0])
row = idx // per_row
col = idx % per_row
return [row, col]
```
A zero divisor raises `ZeroDivisionError` (Python evaluates `per_row`
before parsing the filename, so `grid_size = 0` fails regardless of the
filename). -/
def index_to_location (filename : List Char) (width grid_size : Int) :
    Except PyError (Int × Int) :=
  if grid_size = 0 then .error .zeroDivision
  else
    let per_row := width.fdiv grid_size + 1
    match parseIdx filename with
    | .error e => .error e
    | .ok idx =>
      if per_row = 0 then .error .zeroDivision
      else .ok (idx.fdiv per_row, idx.fmod per_row)

/-- A filename of the pattern `tile_<digits>.<ext>`. -/
def mkTile (ds ext : List Char) : List Char :=
  't' :: 'i' :: 'l' :: 'e' :: '_' :: (ds ++ '.' :: ext)

/-- Outcome of the per-tile rule loop in `apply_rules` (`simple.py`
lines 172–176): either every rule passed, or iteration stopped at the
rule that first returned false. -/
inductive Outcome (ρ : Type) : Type where
  | accepted : Outcome ρ
  | rejected : ρ → Outcome ρ
deriving DecidableEq

/-- The inner `for rule in rules` loop of `apply_rules`: rules are tried
in list order; the first rule whose predicate returns false stops the
loop (`break`) and rejects the tile; if none fails the tile is accepted.
`ρ` is the identity of a rule (in Python, the rule closure itself) and
`pred` its evaluation on a statistics tuple `σ` — the tuple is passed
whole, modelling Python's positional unpacking `rule(*statistics)`. -/
def classify {σ ρ : Type} (pred : ρ → σ → Bool) :
    List ρ → σ → Outcome ρ
  | [], _ => .accepted
  | r :: rs, s => if pred r s then classify pred rs s else .rejected r

/-- Tail of `apply_rules` (`simple.py` lines 161–182): walk the
candidates in order; a candidate whose classification is rejected is
appended to the shared `rejects` accumulator, an accepted one to the
batch-local `accum` list.  `g` models
`img.get_image_statistics(path.join(SCRATCH_PATH, subdirectory, f))`
for the call's fixed subdirectory. -/
def apply_rules_loop {α σ ρ : Type} (pred : ρ → σ → Bool) (g : α → σ)
    (rules : List ρ) :
    List α → List α → List α → List α × List α
  | [], rejects, accum => (accum, rejects)
  | f :: fs, rejects, accum =>
    match classify pred rules (g f) with
    | .accepted => apply_rules_loop pred g rules fs rejects (accum ++ [f])
    | .rejected _ => apply_rules_loop pred g rules fs (rejects ++ [f]) accum

/-- `apply_rules(candidates, rejects, subdirectory, rules)`: returns the
pair (accepted list `accum`, final contents of the mutated `rejects`
accumulator). -/
def apply_rules {α σ ρ : Type} (pred : ρ → σ → Bool) (g : α → σ)
    (candidates rejects : List α) (rules : List ρ) : List α × List α :=
  apply_rules_loop pred g rules candidates rejects []

/-- Values stored in a manifest record: Python strings or integers. -/
inductive PyVal : Type where
  | s : List Char → PyVal
  | i : Int → PyVal
deriving DecidableEq

/-- A Python dict modelled as an ordered association list. -/
abbrev Record : Type := List (String × PyVal)

/-- One assignment `d[k] = v` with Python dict semantics: an existing
key keeps its position and receives the new value, a new key is
appended at the end. -/
def updStep (d : Record) (kv : String × PyVal) : Record :=
  if d.any (fun p => p.1 == kv.1) then
    d.map (fun p => if p.1 == kv.1 then kv else p)
  else d ++ [kv]

/-- Python's `dict.update(e)`: assign every pair of `e`, in order. -/
def dictUpdate (d e : Record) : Record := e.foldl updStep d

/-- `list(d.keys())`. -/
def keysOf (d : Record) : List String := d.map Prod.fst

/-- `d[k]` as an `Option`. -/
def pyLookup (d : Record) (k : String) : Option PyVal :=
  (d.find? (fun p => p.1 == k)).map Prod.snd

/-- The key-level effect of `dict.update`, on key lists alone. -/
def keyUpdate (d e : List String) : List String :=
  e.foldl (fun acc k => if k ∈ acc then acc else acc ++ [k]) d

/-- The value a key finally receives from a dict when pairs are
assigned in order: the last occurrence wins. -/
def lookupLast (e : Record) (k : String) : Option PyVal :=
  pyLookup e.reverse k

/-- The literal dict built first in `build_dict_for_csv` (`simple.py`
lines 196–204): the identity fields of a manifest record. -/
def baseDict (filename reason : List Char) (row col w h : Int) : Record :=
  [("#filename1", .s ("after_".data ++ filename)),
   ("#filename2", .s ("before_".data ++ filename)),
   ("#reason", .s reason),
   ("#row", .i row),
   ("#column", .i col),
   ("#width", .i w),
   ("#height", .i h)]

/-- `build_dict_for_csv(filename, reason, config)` (`simple.py` lines
192–210).  `dims` models `img.get_dimensions` on the tile file (the
tile's own width and height); `width` is the scene's recorded
`config.width` and `grid_size` is `config.GRID_SIZE` — these, not the
tile's dimensions, feed `index_to_location`.  `coord` models
`compute_coordinate_metadata` and `metadata` is `config.METADATA`; both
are merged into the identity dict by `dict.update`, in that order. -/
def build_dict_for_csv (dims : List Char → Int × Int)
    (coord : Int → Int → Int → Int → Record) (metadata : Record)
    (width grid_size : Int) (filename reason : List Char) :
    Except PyError Record :=
  let wh := dims filename
  match index_to_location filename width grid_size with
  | .error e => .error e
  | .ok rc =>
    .ok (dictUpdate
      (dictUpdate (baseDict filename reason rc.1 rc.2 wh.1 wh.2)
        (coord rc.1 rc.2 wh.1 wh.2))
      metadata)

/-- Observable collaborator calls `main` makes, in program order. -/
inductive Event : Type where
  | buildScratch : Event
  | buildOutput : Event
  | clampImage : Event
  | assembleImage : Event
  | prepareTiles : Event
  | acceptTile : List Char → Event
  | writeManifest : List Record → Event
  | labelAll : Event
  | maybeCleanScratch : Event
deriving DecidableEq

/-- Stage-enable flags and grid size that `main` reads from the global
`config` (written by `parse_options`, which parses the CLI and is
external to the core pipeline). -/
structure MainConfig : Type where
  REBUILD : Bool
  ASSEMBLE_IMAGE : Bool
  SLICE_IMAGE : Bool
  REJECT_TILES : Bool
  BUILD_MANIFEST : Bool
  ANNOTATE : Bool
  GRID_SIZE : Int

/-- The external collaborators one `main` run observes:
`scratch_exists(config)`, `img.get_dimensions(INPUT_FILE)` (scene width
and height), `get_files_by_extension(... "scene", "png")` (the tile
listing), per-tile `img.get_dimensions`, `compute_coordinate_metadata`
and `parse_metadata`. -/
structure Env : Type where
  scratch_exists : Bool
  scene_width : Int
  scene_height : Int
  retained_tiles : List (List Char)
  tile_dims : List Char → Int × Int
  coord : Int → Int → Int → Int → Record
  metadata : Record

/-- `"Accepted"`: the reason `main` passes to `build_dict_for_csv` for
every tile it routes. -/
def acceptedReason : List Char := "Accepted".data

/-- Extract the tile filename from an `accept_tile` call event. -/
def extractTile : Event → Option (List Char)
  | Event.acceptTile f => some f
  | _ => none

/-- The `for filename in retained_tiles` loop of the REJECT_TILES stage
(`simple.py` lines 292–294): each listed tile is passed to
`accept_tile` and one record, built with reason `"Accepted"`, is
appended to `accepts`.  An exception from the record builder aborts the
whole run. -/
def accept_loop (bd : List Char → Except PyError Record) :
    List (List Char) → Except PyError (List Event × List Record)
  | [] => .ok ([], [])
  | f :: fs =>
    match bd f with
    | .error e => .error e
    | .ok r =>
      match accept_loop bd fs with
      | .error e => .error e
      | .ok pr => .ok (Event.acceptTile f :: pr.1, r :: pr.2)

/-- The collaborator-call sequence of one `main` run (`simple.py` lines
241–308), given the events and records the accept loop produced:
conditional `build_scratch` (line 250–251), `build_output`, the
assemble stage (three `clamp_image` calls and `assemble_image`), the
slice stage (`prepare_tiles`, gated only by `SLICE_IMAGE`), the accept
loop, the manifest write, annotation, and `maybe_clean_scratch`. -/
def main_events (cfg : MainConfig) (env : Env) (aevs : List Event)
    (accepts : List Record) : List Event :=
  (if cfg.REBUILD || !env.scratch_exists then [Event.buildScratch] else [])
  ++ [Event.buildOutput]
  ++ (if cfg.ASSEMBLE_IMAGE then
        [Event.clampImage, Event.clampImage, Event.clampImage,
         Event.assembleImage] else [])
  ++ (if cfg.SLICE_IMAGE then [Event.prepareTiles] else [])
  ++ aevs
  ++ (if cfg.BUILD_MANIFEST then [Event.writeManifest accepts] else [])
  ++ (if cfg.ANNOTATE then [Event.labelAll] else [])
  ++ [Event.maybeCleanScratch]

/-- `main()` (`simple.py` lines 213–308): returns the event trace and
the `accepts` list of a completed run, or the exception that aborted
it. -/
def main_run (cfg : MainConfig) (env : Env) :
    Except PyError (List Event × List Record) :=
  match (if cfg.REJECT_TILES then
      accept_loop (fun f => build_dict_for_csv env.tile_dims env.coord
        env.metadata env.scene_width cfg.GRID_SIZE f acceptedReason)
        env.retained_tiles
    else .ok ([], [])) with
  | .error e => .error e
  | .ok pr => .ok (main_events cfg env pr.1 pr.2, pr.2)

/-- Configuration with only the slice stage enabled. -/
def cfgSliceOnly : MainConfig :=
  ⟨false, false, true, false, false, false, 1000⟩

/-- Configuration with every stage disabled. -/
def cfgAllOff : MainConfig :=
  ⟨false, false, false, false, false, false, 1000⟩

/-- Configuration with the reject-tiles and manifest stages enabled. -/
def cfgRejectManifest : MainConfig :=
  ⟨false, false, false, true, true, false, 1000⟩

/-- An environment whose scratch directory already exists and whose
scene listing is empty. -/
def envScratch : Env :=
  ⟨true, 5490, 5490, [], fun _ => (0, 0), fun _ _ _ _ => [], []⟩

/-- An environment whose scratch directory already exists and whose
scene listing holds one tile. -/
def envOneTile : Env :=
  ⟨true, 5490, 5490, ["tile_0.png".data], fun _ => (1000, 1000),
   fun _ _ _ _ => [], []⟩

/-- The record `main` builds for `tile_0.png` in `envOneTile`. -/
def recOneTile : Record :=
  baseDict ("tile_0.png".data) acceptedReason 0 0 1000 1000

/-- The event trace of `main` under `cfgRejectManifest` and
`envOneTile`. -/
def evsOneTile : List Event :=
  [Event.buildOutput, Event.acceptTile ("tile_0.png".data),
   Event.writeManifest [recOneTile], Event.maybeCleanScratch]

theorem splitOnChar_ne_nil (sep : Char) (l : List Char) :
    splitOnChar sep l ≠ [] := by
  cases l with
  | nil => simp [splitOnChar]
  | cons c cs => simp only [splitOnChar]; split <;> simp

theorem splitOnChar_of_not_mem {sep : Char} {l : List Char} (h : sep ∉ l) :
    splitOnChar sep l = [l] := by
  induction l with
  | nil => rfl
  | cons c cs ih =>
    have hc : ¬ c = sep := fun e => h (e ▸ List.mem_cons_self c cs)
    have hcs : sep ∉ cs := fun m => h (List.mem_cons_of_mem _ m)
    simp [splitOnChar, hc, ih hcs]

theorem splitOnChar_append {sep : Char} {xs : List Char} (h : sep ∉ xs)
    (ys : List Char) :
    splitOnChar sep (xs ++ sep :: ys) = xs :: splitOnChar sep ys := by
  induction xs with
  | nil => simp [splitOnChar]
  | cons c cs ih =>
    have hc : ¬ c = sep := fun e => h (e ▸ List.mem_cons_self c cs)
    have hcs : sep ∉ cs := fun m => h (List.mem_cons_of_mem _ m)
    rw [List.cons_append]
    simp [splitOnChar, hc, ih hcs]

theorem splitOnChar_headI (sep : Char) (l : List Char) :
    (splitOnChar sep l).headI = l.takeWhile (fun c => decide (c ≠ sep)) := by
  induction l with
  | nil => rfl
  | cons c cs ih =>
    by_cases hc : c = sep
    · subst hc; simp [splitOnChar, List.takeWhile_cons]
    · simp [splitOnChar, hc, List.takeWhile_cons, ih]

theorem takeWhile_append_of_all {p : Char → Bool} {xs : List Char}
    (h : ∀ c ∈ xs, p c = true) (l : List Char) :
    (xs ++ l).takeWhile p = xs ++ l.takeWhile p := by
  induction xs with
  | nil => rfl
  | cons c cs ih =>
    simp [List.takeWhile_cons, h c (List.mem_cons_self c cs),
      ih fun d hd => h d (List.mem_cons_of_mem _ hd)]

/-- C1: for every non-negative index and width and every positive
`grid_size`, grid addressing on a filename encoding `idx` returns
`row = idx // tiles_per_row` and `column = idx % tiles_per_row` with
`tiles_per_row = width // grid_size + 1`, and these satisfy
`row * tiles_per_row + column = idx`.  (Determinism is immediate:
`index_to_location` is a function of its arguments.) -/
theorem index_to_location_addressing (filename : List Char)
    (idx width grid_size : Int)
    (hidx : 0 ≤ idx) (hw : 0 ≤ width) (hg : 0 < grid_size)
    (hparse : parseIdx filename = .ok idx) :
    index_to_location filename width grid_size =
      .ok (idx.fdiv (width.fdiv grid_size + 1),
           idx.fmod (width.fdiv grid_size + 1)) ∧
    idx.fdiv (width.fdiv grid_size + 1) * (width.fdiv grid_size + 1) +
      idx.fmod (width.fdiv grid_size + 1) = idx := by
  have hgz : ¬ grid_size = 0 := by omega
  have hpr : 0 < width.fdiv grid_size + 1 := by
    have := Int.fdiv_nonneg hw (le_of_lt hg)
    omega
  constructor
  · simp only [index_to_location, if_neg hgz, hparse]
    rw [if_neg (by omega)]
  · have h := Int.fmod_add_fdiv idx (width.fdiv grid_size + 1)
    linarith

/-- Witness for C1 at the spec's end-to-end example: width 5490,
grid size 1000, tile index 7 maps to row 1, column 1, and
`1 * 6 + 1 = 7`. -/
theorem index_to_location_addressing_witness :
    index_to_location ("tile_7.png".data) 5490 1000 = .ok (1, 1) ∧
    (1 : Int) * 6 + 1 = 7 := by
  have h := index_to_location_addressing ("tile_7.png".data) 7 5490 1000
    (by decide) (by decide) (by decide) (by rfl)
  exact ⟨h.1.trans (by rfl), by decide⟩

/-- C7 counterexample: at `grid_size = -1000 ≤ 0` the code does not fail
at all — it returns the floor-division result `[-2, -3]` for tile index
7 of a width-5490 scene. -/
theorem index_to_location_negative_grid_counterexample :
    (-1000 : Int) ≤ 0 ∧
    index_to_location ("tile_7.png".data) 5490 (-1000) = .ok (-2, -3) :=
  ⟨by decide, by rfl⟩

/-- C7 (amended): for `grid_size = 0` the function fails fast — with a
`ZeroDivisionError`, not an `InvalidConfiguration` error — and never
returns a (row, column); for `grid_size < 0` it does not fail: whenever
the filename parses and `width // grid_size + 1 ≠ 0` it returns the
floor-division (row, column) unchecked. -/
theorem index_to_location_nonpositive_grid (f : List Char)
    (w gs idx : Int) :
    (gs = 0 → index_to_location f w gs = .error .zeroDivision) ∧
    (gs < 0 → parseIdx f = .ok idx → w.fdiv gs + 1 ≠ 0 →
      index_to_location f w gs =
        .ok (idx.fdiv (w.fdiv gs + 1), idx.fmod (w.fdiv gs + 1))) := by
  constructor
  · intro h
    simp [index_to_location, h]
  · intro hneg hparse hpr
    have hgz : ¬ gs = 0 := by omega
    simp only [index_to_location, if_neg hgz, hparse]
    rw [if_neg hpr]

/-- Witness for the amended C7: `grid_size = 0` yields the division
error, and `grid_size = -1000` yields the unchecked result. -/
theorem index_to_location_nonpositive_grid_witness :
    index_to_location ("tile_7.png".data) 5490 0 = .error .zeroDivision ∧
    index_to_location ("tile_7.png".data) 5490 (-1000) = .ok (-2, -3) := by
  have h0 := (index_to_location_nonpositive_grid ("tile_7.png".data)
    5490 0 7).1 rfl
  have h1 := (index_to_location_nonpositive_grid ("tile_7.png".data)
    5490 (-1000) 7).2 (by decide) (by rfl) (by decide)
  exact ⟨h0, h1.trans (by rfl)⟩

theorem isPySpace_eq_false_of_isDigit {c : Char} (h : c.isDigit = true) :
    isPySpace c = false := by
  cases hsp : isPySpace c
  · rfl
  · exfalso
    simp only [isPySpace, Bool.or_eq_true, beq_iff_eq] at hsp
    rcases hsp with ((((h1 | h1) | h1) | h1) | h1) | h1 <;>
      (subst h1; exact absurd h (by decide))

theorem isDigit_ne_special {c : Char} (h : c.isDigit = true) :
    c ≠ '_' ∧ c ≠ '.' ∧ c ≠ '-' ∧ c ≠ '+' := by
  refine ⟨?_, ?_, ?_, ?_⟩ <;> intro e <;> subst e <;> revert h <;> decide

theorem dropWhile_eq_self_of_all {p : Char → Bool} {l : List Char}
    (h : ∀ c ∈ l, p c = false) : l.dropWhile p = l := by
  cases l with
  | nil => rfl
  | cons c cs => simp [List.dropWhile_cons, h c (List.mem_cons_self c cs)]

theorem pyStrip_eq_self {l : List Char} (h : ∀ c ∈ l, isPySpace c = false) :
    pyStrip l = l := by
  unfold pyStrip
  rw [dropWhile_eq_self_of_all h,
    dropWhile_eq_self_of_all (fun c hc => h c (List.mem_reverse.mp hc)),
    List.reverse_reverse]

theorem parseInt_digits {l : List Char} (hne : l ≠ [])
    (hd : ∀ c ∈ l, c.isDigit = true) :
    parseInt l = .ok (digitsVal l) := by
  have hsp : ∀ c ∈ l, isPySpace c = false :=
    fun c hc => isPySpace_eq_false_of_isDigit (hd c hc)
  unfold parseInt
  rw [pyStrip_eq_self hsp]
  cases l with
  | nil => exact absurd rfl hne
  | cons c cs =>
    have hc := hd c (List.mem_cons_self c cs)
    have hm : ¬ c = '-' := (isDigit_ne_special hc).2.2.1
    have hp : ¬ c = '+' := (isDigit_ne_special hc).2.2.2
    simp only [if_neg hm, if_neg hp]
    unfold parseDigits
    rw [if_neg (by simp), if_pos (by rw [List.all_eq_true]; exact hd)]

theorem mem_ne_of_not_mem {sep : Char} {l : List Char} (h : sep ∉ l) :
    ∀ c ∈ l, decide (c ≠ sep) = true := by
  intro c hc
  have hne : c ≠ sep := by
    intro e
    exact h (e ▸ hc)
  simpa using hne

/-- The segment of a filename that `index_to_location` actually reads:
everything between the first underscore and the next dot. -/
theorem parseIdx_segment {pre seg : List Char} (hpre : '_' ∉ pre)
    (hseg : '_' ∉ seg) (hdot : '.' ∉ seg) (rest : List Char) :
    parseIdx (pre ++ '_' :: (seg ++ '.' :: rest)) = parseInt seg := by
  unfold parseIdx
  rw [splitOnChar_append hpre]
  obtain ⟨h, t, hht⟩ : ∃ h t, splitOnChar '_' (seg ++ '.' :: rest) = h :: t := by
    cases hsc : splitOnChar '_' (seg ++ '.' :: rest) with
    | nil => exact absurd hsc (splitOnChar_ne_nil _ _)
    | cons h t => exact ⟨h, t, rfl⟩
  rw [hht]
  have hh : h = seg ++ '.' :: (rest.takeWhile (fun c => decide (c ≠ '_'))) := by
    have hhead := splitOnChar_headI '_' (seg ++ '.' :: rest)
    rw [hht] at hhead
    simp only [List.headI] at hhead
    rw [hhead, @takeWhile_append_of_all (fun c => decide (c ≠ '_')) seg
      (mem_ne_of_not_mem hseg) ('.' :: rest), List.takeWhile_cons]
    simp
  have hfinal : (splitOnChar '.' h).headI = seg := by
    rw [splitOnChar_headI, hh, @takeWhile_append_of_all
      (fun c => decide (c ≠ '.')) seg (mem_ne_of_not_mem hdot)
      ('.' :: List.takeWhile (fun c => decide (c ≠ '_')) rest),
      List.takeWhile_cons]
    simp
  show parseInt ((splitOnChar '.' h).headI) = parseInt seg
  rw [hfinal]

/-- C10: `index_to_location` reads its filename only through the segment
between the first underscore and the following dot: on any
`tile_<n>.<ext>` name it parses index `n` whatever the extension is; two
names of that pattern with the same numeric segment are mapped
identically; and a name without an underscore makes the parse fail
(IndexError), so under the `tile_<index>.<ext>` naming precondition the
failure branch is unreachable. -/
theorem index_to_location_filename_dependence :
    (∀ pre seg rest : List Char, '_' ∉ pre → '_' ∉ seg → '.' ∉ seg →
      parseIdx (pre ++ '_' :: (seg ++ '.' :: rest)) = parseInt seg) ∧
    (∀ ds ext : List Char, ds ≠ [] → (∀ c ∈ ds, c.isDigit = true) →
      parseIdx (mkTile ds ext) = .ok (digitsVal ds)) ∧
    (∀ ds ds' ext ext' : List Char, ∀ w gs : Int,
      ds ≠ [] → (∀ c ∈ ds, c.isDigit = true) →
      ds' ≠ [] → (∀ c ∈ ds', c.isDigit = true) →
      digitsVal ds = digitsVal ds' →
      index_to_location (mkTile ds ext) w gs =
        index_to_location (mkTile ds' ext') w gs) ∧
    (∀ f : List Char, '_' ∉ f → parseIdx f = .error .indexError) := by
  have hpat : ∀ ds ext : List Char, ds ≠ [] → (∀ c ∈ ds, c.isDigit = true) →
      parseIdx (mkTile ds ext) = .ok (digitsVal ds) := by
    intro ds ext hne hd
    have hseg : '_' ∉ ds := fun m => (isDigit_ne_special (hd _ m)).1 rfl
    have hdot : '.' ∉ ds := fun m => (isDigit_ne_special (hd _ m)).2.1 rfl
    have := @parseIdx_segment ['t', 'i', 'l', 'e'] ds (by decide)
      hseg hdot ext
    exact this.trans (parseInt_digits hne hd)
  refine ⟨fun pre seg rest h1 h2 h3 => parseIdx_segment h1 h2 h3 rest,
    hpat, ?_, ?_⟩
  · intro ds ds' ext ext' w gs hne hd hne' hd' hval
    unfold index_to_location
    rw [hpat ds ext hne hd, hpat ds' ext' hne' hd', hval]
  · intro f hf
    simp [parseIdx, splitOnChar_of_not_mem hf]

/-- Witness for C10: `tile_42.png` parses to 42, an underscore-free name
fails with IndexError, a non-numeric segment fails with ValueError. -/
theorem index_to_location_filename_dependence_witness :
    parseIdx ("tile_42.png".data) = .ok 42 ∧
    parseIdx ("tilepng".data) = .error .indexError ∧
    parseIdx ("tile_ab.png".data) = .error .valueError := by
  have h := index_to_location_filename_dependence
  refine ⟨?_, ?_, ?_⟩
  · have h2 := h.2.1 ['4', '2'] ['p', 'n', 'g'] (by decide) (by decide)
    rw [show ("tile_42.png".data) = mkTile ['4', '2'] ['p', 'n', 'g'] from rfl]
    exact h2.trans (by rfl)
  · exact h.2.2.2 ("tilepng".data) (by decide)
  · have h3 := h.1 ['t', 'i', 'l', 'e'] ['a', 'b'] ['p', 'n', 'g']
      (by decide) (by decide) (by decide)
    rw [show ("tile_ab.png".data) =
      ['t', 'i', 'l', 'e'] ++ '_' :: (['a', 'b'] ++ '.' :: ['p', 'n', 'g'])
      from rfl]
    exact h3.trans (by rfl)

theorem classify_eq_accepted_iff {σ ρ : Type} (pred : ρ → σ → Bool)
    (rules : List ρ) (s : σ) :
    classify pred rules s = .accepted ↔ ∀ r ∈ rules, pred r s = true := by
  induction rules with
  | nil => simp [classify]
  | cons a rs ih =>
    by_cases ha : pred a s = true
    · simp [classify, ha, ih]
    · simp only [classify, if_neg ha]
      constructor
      · intro hcontra
        exact absurd hcontra (by simp)
      · intro hall
        exact absurd (hall a (List.mem_cons_self a rs)) ha

theorem classify_eq_rejected_iff {σ ρ : Type} (pred : ρ → σ → Bool)
    (rules : List ρ) (s : σ) (r : ρ) :
    classify pred rules s = .rejected r ↔
      ∃ pre post, rules = pre ++ r :: post ∧
        (∀ q ∈ pre, pred q s = true) ∧ pred r s = false := by
  induction rules with
  | nil =>
    simp only [classify]
    constructor
    · intro hcontra
      exact absurd hcontra (by simp)
    · rintro ⟨pre, post, habs, -, -⟩
      exact absurd habs (by simp)
  | cons a rs ih =>
    by_cases ha : pred a s = true
    · simp only [classify, if_pos ha]
      rw [ih]
      constructor
      · rintro ⟨pre, post, hdec, hpre, hr⟩
        exact ⟨a :: pre, post, by rw [hdec, List.cons_append],
          fun q hq => by
            rcases List.mem_cons.mp hq with hq | hq
            · exact hq ▸ ha
            · exact hpre q hq, hr⟩
      · rintro ⟨pre, post, hdec, hpre, hr⟩
        cases pre with
        | nil =>
          exfalso
          simp only [List.nil_append, List.cons.injEq] at hdec
          exact absurd (hdec.1 ▸ ha) (by rw [hr]; simp)
        | cons b pre' =>
          simp only [List.cons_append, List.cons.injEq] at hdec
          exact ⟨pre', post, hdec.2,
            fun q hq => hpre q (List.mem_cons_of_mem _ hq), hr⟩
    · have ha' : pred a s = false := Bool.eq_false_iff.mpr ha
      simp only [classify, if_neg ha]
      constructor
      · intro heq
        have : a = r := by simpa using heq
        exact ⟨[], rs, by rw [this, List.nil_append], by simp, this ▸ ha'⟩
      · rintro ⟨pre, post, hdec, hpre, hr⟩
        cases pre with
        | nil =>
          simp only [List.nil_append, List.cons.injEq] at hdec
          rw [hdec.1]
        | cons b pre' =>
          exfalso
          simp only [List.cons_append, List.cons.injEq] at hdec
          exact absurd (hdec.1 ▸ hpre b (List.mem_cons_self b pre')) ha

/-- C2: the per-tile loop of `apply_rules` accepts exactly when every
rule predicate returns true on the tile's statistics; otherwise it stops
at, and reports, the first rule (in list order) whose predicate returns
false — never a later rule and never a composite. -/
theorem classify_first_failure {σ ρ : Type} (pred : ρ → σ → Bool)
    (rules : List ρ) (s : σ) :
    (classify pred rules s = .accepted ↔ ∀ r ∈ rules, pred r s = true) ∧
    (∀ r, classify pred rules s = .rejected r ↔
      ∃ pre post, rules = pre ++ r :: post ∧
        (∀ q ∈ pre, pred q s = true) ∧ pred r s = false) :=
  ⟨classify_eq_accepted_iff pred rules s,
   fun r => classify_eq_rejected_iff pred rules s r⟩

theorem all_of_classify_accepted {σ ρ : Type} {pred : ρ → σ → Bool}
    {rules : List ρ} {s : σ} (h : classify pred rules s = .accepted) :
    rules.all (fun r => pred r s) = true := by
  rw [List.all_eq_true]
  exact (classify_eq_accepted_iff pred rules s).mp h

theorem all_of_classify_rejected {σ ρ : Type} {pred : ρ → σ → Bool}
    {rules : List ρ} {s : σ} {r : ρ}
    (h : classify pred rules s = .rejected r) :
    rules.all (fun r => pred r s) = false := by
  obtain ⟨pre, post, hdec, -, hr⟩ :=
    (classify_eq_rejected_iff pred rules s r).mp h
  rw [Bool.eq_false_iff]
  intro hall
  rw [List.all_eq_true] at hall
  exact absurd (hall r (by rw [hdec]; simp)) (by rw [hr]; simp)

theorem apply_rules_loop_eq {α σ ρ : Type} (pred : ρ → σ → Bool)
    (g : α → σ) (rules : List ρ) (fs : List α) :
    ∀ rejects accum : List α,
      apply_rules_loop pred g rules fs rejects accum =
        (accum ++ fs.filter (fun f => rules.all (fun r => pred r (g f))),
         rejects ++ fs.filter (fun f => !rules.all (fun r => pred r (g f)))) := by
  induction fs with
  | nil => intro rejects accum; simp [apply_rules_loop]
  | cons f fs ih =>
    intro rejects accum
    cases hcl : classify pred rules (g f) with
    | accepted =>
      have hall := all_of_classify_accepted hcl
      simp only [apply_rules_loop, hcl, ih, List.filter_cons, hall]
      simp
    | rejected r =>
      have hall := all_of_classify_rejected hcl
      simp only [apply_rules_loop, hcl, ih, List.filter_cons, hall]
      simp

/-- C3: `apply_rules` is a stable partition — the returned accepted list
is exactly the candidates passing every rule, in input order, and each
failing candidate is appended (in input order) to the `rejects`
accumulator; nothing is reordered or sorted. -/
theorem apply_rules_stable_partition {α σ ρ : Type} (pred : ρ → σ → Bool)
    (g : α → σ) (candidates rejects : List α) (rules : List ρ) :
    apply_rules pred g candidates rejects rules =
      (candidates.filter (fun f => rules.all (fun r => pred r (g f))),
       rejects ++
         candidates.filter (fun f => !rules.all (fun r => pred r (g f)))) := by
  unfold apply_rules
  rw [apply_rules_loop_eq]
  simp

/-- C8: `apply_rules` only ever appends to its `rejects` argument — the
prior contents are an unchanged prefix of the result — and across two
successive calls sharing the accumulator the appends accumulate, so the
accumulator behaves as one run-scoped append-only sequence. -/
theorem apply_rules_append_only {α σ ρ : Type} (pred : ρ → σ → Bool)
    (g : α → σ) (candidates rejects : List α) (rules : List ρ) :
    ∃ t, (apply_rules pred g candidates rejects rules).2 = rejects ++ t ∧
      ∀ candidates₂ : List α, ∃ t₂,
        (apply_rules pred g candidates₂
          ((apply_rules pred g candidates rejects rules).2) rules).2 =
          rejects ++ t ++ t₂ := by
  refine ⟨candidates.filter (fun f => !rules.all (fun r => pred r (g f))), ?_, ?_⟩
  · unfold apply_rules
    rw [apply_rules_loop_eq]
  · intro candidates₂
    refine ⟨candidates₂.filter (fun f => !rules.all (fun r => pred r (g f))), ?_⟩
    unfold apply_rules
    rw [apply_rules_loop_eq, apply_rules_loop_eq]

theorem keysOf_updStep (d : Record) (kv : String × PyVal) :
    keysOf (updStep d kv) =
      if kv.1 ∈ keysOf d then keysOf d else keysOf d ++ [kv.1] := by
  have hmem : (d.any (fun p => p.1 == kv.1) = true) ↔ kv.1 ∈ keysOf d := by
    rw [List.any_eq_true]
    constructor
    · rintro ⟨p, hp, hpk⟩
      exact List.mem_map.mpr ⟨p, hp, by simpa using hpk⟩
    · intro hk
      obtain ⟨p, hp, hpk⟩ := List.mem_map.mp hk
      exact ⟨p, hp, by simp [hpk]⟩
  unfold updStep
  by_cases hk : kv.1 ∈ keysOf d
  · rw [if_pos (hmem.mpr hk), if_pos hk]
    unfold keysOf
    rw [List.map_map]
    apply List.map_congr_left
    intro p hp
    simp only [Function.comp_apply]
    by_cases hpk : (p.1 == kv.1) = true
    · rw [if_pos hpk]
      exact (eq_of_beq hpk).symm
    · rw [if_neg hpk]
  · rw [if_neg (fun h => hk (hmem.mp h)), if_neg hk]
    unfold keysOf
    rw [List.map_append]
    rfl

theorem keysOf_dictUpdate (e : Record) : ∀ d : Record,
    keysOf (dictUpdate d e) = keyUpdate (keysOf d) (keysOf e) := by
  induction e with
  | nil => intro d; rfl
  | cons kv e' ih =>
    intro d
    show keysOf (dictUpdate (updStep d kv) e') = _
    rw [ih (updStep d kv), keysOf_updStep]
    rfl

theorem pyLookup_cons_of_pos {p : String × PyVal} {k : String}
    (h : (p.1 == k) = true) (d : Record) :
    pyLookup (p :: d) k = some p.2 := by
  unfold pyLookup
  rw [List.find?_cons, h]
  rfl

theorem pyLookup_cons_of_neg {p : String × PyVal} {k : String}
    (h : ¬ (p.1 == k) = true) (d : Record) :
    pyLookup (p :: d) k = pyLookup d k := by
  have h' : (p.1 == k) = false := by
    revert h
    cases (p.1 == k) <;> simp
  unfold pyLookup
  rw [List.find?_cons, h']

theorem pyLookup_append (d₁ d₂ : Record) (k : String) :
    pyLookup (d₁ ++ d₂) k = (pyLookup d₁ k).or (pyLookup d₂ k) := by
  induction d₁ with
  | nil => simp [pyLookup]
  | cons p d ih =>
    rw [List.cons_append]
    by_cases hp : (p.1 == k) = true
    · rw [pyLookup_cons_of_pos hp, pyLookup_cons_of_pos hp, Option.or_some]
    · rw [pyLookup_cons_of_neg hp, pyLookup_cons_of_neg hp, ih]

theorem pyLookup_eq_none_of_not_mem {e : Record} {k : String}
    (h : k ∉ keysOf e) : pyLookup e k = none := by
  unfold pyLookup
  rw [List.find?_eq_none.mpr]
  · rfl
  · intro p hp hc
    exact h (List.mem_map.mpr ⟨p, hp, eq_of_beq hc⟩)

theorem pyLookup_isSome_of_mem {e : Record} {k : String}
    (h : k ∈ keysOf e) : ∃ v, pyLookup e k = some v := by
  cases hf : e.find? (fun p => p.1 == k) with
  | some p => exact ⟨p.2, by unfold pyLookup; rw [hf]; rfl⟩
  | none =>
    exfalso
    rw [List.find?_eq_none] at hf
    obtain ⟨p, hp, hpk⟩ := List.mem_map.mp h
    exact hf p hp (by simp [hpk])

theorem pyLookup_map_ne {kv : String × PyVal} {k : String} (hne : k ≠ kv.1)
    (d : Record) :
    pyLookup (d.map (fun p => if p.1 == kv.1 then kv else p)) k =
      pyLookup d k := by
  induction d with
  | nil => rfl
  | cons p d ih =>
    rw [List.map_cons]
    by_cases hpk : (p.1 == kv.1) = true
    · rw [if_pos hpk,
        pyLookup_cons_of_neg (by simpa using Ne.symm hne),
        pyLookup_cons_of_neg (by simpa [eq_of_beq hpk] using Ne.symm hne)]
      exact ih
    · rw [if_neg hpk]
      by_cases hp : (p.1 == k) = true
      · rw [pyLookup_cons_of_pos hp, pyLookup_cons_of_pos hp]
      · rw [pyLookup_cons_of_neg hp, pyLookup_cons_of_neg hp, ih]

theorem pyLookup_map_self {kv : String × PyVal} (d : Record)
    (h : d.any (fun p => p.1 == kv.1) = true) :
    pyLookup (d.map (fun p => if p.1 == kv.1 then kv else p)) kv.1 =
      some kv.2 := by
  induction d with
  | nil => simp at h
  | cons p d ih =>
    rw [List.map_cons]
    by_cases hpk : (p.1 == kv.1) = true
    · rw [if_pos hpk, pyLookup_cons_of_pos (by simp)]
    · rw [if_neg hpk, pyLookup_cons_of_neg hpk]
      apply ih
      rcases List.any_eq_true.mp h with ⟨q, hq, hqk⟩
      rcases List.mem_cons.mp hq with rfl | hq'
      · exact absurd hqk hpk
      · exact List.any_eq_true.mpr ⟨q, hq', hqk⟩

theorem pyLookup_updStep (d : Record) (kv : String × PyVal) (k : String) :
    pyLookup (updStep d kv) k =
      if k = kv.1 then some kv.2 else pyLookup d k := by
  unfold updStep
  by_cases hany : d.any (fun p => p.1 == kv.1) = true
  · rw [if_pos hany]
    by_cases hk : k = kv.1
    · rw [if_pos hk, hk, pyLookup_map_self d hany]
    · rw [if_neg hk, pyLookup_map_ne hk d]
  · rw [if_neg hany, pyLookup_append]
    by_cases hk : k = kv.1
    · rw [if_pos hk]
      have hnone : pyLookup d k = none := by
        unfold pyLookup
        rw [List.find?_eq_none.mpr]
        · rfl
        · intro p hp hcontra
          exact hany (List.any_eq_true.mpr ⟨p, hp, by
            rw [hk] at hcontra; exact hcontra⟩)
      rw [hnone]
      show pyLookup [kv] k = some kv.2
      rw [pyLookup_cons_of_pos (by simp [hk])]
    · rw [if_neg hk]
      cases hd : pyLookup d k with
      | some v => rfl
      | none =>
        show pyLookup [kv] k = none
        rw [pyLookup_cons_of_neg (by simpa using Ne.symm hk)]
        rfl

theorem lookupLast_cons (kv : String × PyVal) (e : Record) (k : String) :
    lookupLast (kv :: e) k =
      (lookupLast e k).or (if k = kv.1 then some kv.2 else none) := by
  unfold lookupLast
  rw [List.reverse_cons, pyLookup_append]
  have hkv : pyLookup [kv] k = if k = kv.1 then some kv.2 else none := by
    by_cases hk : k = kv.1
    · rw [if_pos hk, pyLookup_cons_of_pos (by simp [hk])]
    · rw [if_neg hk, pyLookup_cons_of_neg (by simpa using Ne.symm hk)]
      rfl
  rw [hkv]

theorem pyLookup_dictUpdate (e : Record) : ∀ (d : Record) (k : String),
    pyLookup (dictUpdate d e) k = (lookupLast e k).or (pyLookup d k) := by
  induction e with
  | nil => intro d k; rfl
  | cons kv e' ih =>
    intro d k
    show pyLookup (dictUpdate (updStep d kv) e') k = _
    rw [ih (updStep d kv) k, pyLookup_updStep, lookupLast_cons]
    cases hl : lookupLast e' k with
    | some v => rw [Option.or_some, Option.or_some, Option.or_some]
    | none =>
      rw [Option.none_or, Option.none_or]
      by_cases hk : k = kv.1
      · rw [if_pos hk, if_pos hk, Option.or_some]
      · rw [if_neg hk, if_neg hk, Option.none_or]

theorem lookupLast_eq_pyLookup {e : Record} (h : (keysOf e).Nodup)
    (k : String) : lookupLast e k = pyLookup e k := by
  induction e with
  | nil => rfl
  | cons kv e' ih =>
    have htail : (keysOf e').Nodup := (List.nodup_cons.mp h).2
    have hk1 : kv.1 ∉ keysOf e' := (List.nodup_cons.mp h).1
    rw [lookupLast_cons]
    by_cases hk : k = kv.1
    · have hnone : lookupLast e' k = none := by
        unfold lookupLast pyLookup
        rw [List.find?_eq_none.mpr]
        · rfl
        · intro p hp hc
          exact hk1 (List.mem_map.mpr ⟨p, List.mem_reverse.mp hp,
            (eq_of_beq hc).trans hk⟩)
      rw [hnone, Option.none_or, if_pos hk,
        pyLookup_cons_of_pos (by simp [hk])]
    · rw [pyLookup_cons_of_neg (by simpa using Ne.symm hk), ← ih htail,
        if_neg hk, Option.or_none]

/-- C5: `build_dict_for_csv` derives (row, column) by grid addressing
from the scene's recorded width and grid size — the tile-dimension
reader `dims` never enters `index_to_location` — and merges
identity fields, then the coordinate block, then the scene metadata, so
a key collision is resolved in favour of the later source: the final
value of any key is the metadata's if it has the key, else the
coordinate block's if it has it, else the identity fields'. -/
theorem build_dict_precedence (dims : List Char → Int × Int)
    (coord : Int → Int → Int → Int → Record) (metadata : Record)
    (width grid_size : Int) (filename reason : List Char) (r c : Int)
    (hloc : index_to_location filename width grid_size = .ok (r, c))
    (hm : (keysOf metadata).Nodup)
    (hc : (keysOf (coord r c (dims filename).1 (dims filename).2)).Nodup) :
    ∃ rec,
      build_dict_for_csv dims coord metadata width grid_size
        filename reason = .ok rec ∧
      (∀ k, pyLookup rec k =
        if k ∈ keysOf metadata then pyLookup metadata k
        else if k ∈ keysOf (coord r c (dims filename).1 (dims filename).2)
          then pyLookup (coord r c (dims filename).1 (dims filename).2) k
        else pyLookup
          (baseDict filename reason r c (dims filename).1 (dims filename).2)
          k) ∧
      ("#row" ∉ keysOf metadata →
        "#row" ∉ keysOf (coord r c (dims filename).1 (dims filename).2) →
        pyLookup rec "#row" = some (.i r)) ∧
      ("#column" ∉ keysOf metadata →
        "#column" ∉ keysOf (coord r c (dims filename).1 (dims filename).2) →
        pyLookup rec "#column" = some (.i c)) := by
  refine ⟨dictUpdate
    (dictUpdate (baseDict filename reason r c (dims filename).1
      (dims filename).2)
      (coord r c (dims filename).1 (dims filename).2))
    metadata, ?_, ?_, ?_, ?_⟩
  case _ =>
    simp only [build_dict_for_csv, hloc]
  case _ =>
    intro k
    rw [pyLookup_dictUpdate, lookupLast_eq_pyLookup hm]
    by_cases hkm : k ∈ keysOf metadata
    · obtain ⟨v, hv⟩ := pyLookup_isSome_of_mem hkm
      rw [if_pos hkm, hv, Option.or_some]
    · rw [pyLookup_eq_none_of_not_mem hkm, Option.none_or, if_neg hkm,
        pyLookup_dictUpdate, lookupLast_eq_pyLookup hc]
      by_cases hkc :
          k ∈ keysOf (coord r c (dims filename).1 (dims filename).2)
      · obtain ⟨v, hv⟩ := pyLookup_isSome_of_mem hkc
        rw [if_pos hkc, hv, Option.or_some]
      · rw [pyLookup_eq_none_of_not_mem hkc, Option.none_or, if_neg hkc]
  case _ =>
    intro hrm hrc
    rw [pyLookup_dictUpdate, lookupLast_eq_pyLookup hm,
      pyLookup_eq_none_of_not_mem hrm, Option.none_or,
      pyLookup_dictUpdate, lookupLast_eq_pyLookup hc,
      pyLookup_eq_none_of_not_mem hrc, Option.none_or]
    rfl
  case _ =>
    intro hrm hrc
    rw [pyLookup_dictUpdate, lookupLast_eq_pyLookup hm,
      pyLookup_eq_none_of_not_mem hrm, Option.none_or,
      pyLookup_dictUpdate, lookupLast_eq_pyLookup hc,
      pyLookup_eq_none_of_not_mem hrc, Option.none_or]
    rfl

/-- Witness for C5: a concrete scene (width 5490, grid size 1000, tile
`tile_7.png`) with a metadata mapping that collides on `#reason`: the
record keeps row/column from grid addressing and the metadata's value
wins the `#reason` collision. -/
theorem build_dict_precedence_witness :
    ∃ rec,
      build_dict_for_csv (fun _ => (1000, 1000))
        (fun a b _ _ => [("cx", .i a), ("cy", .i b)])
        [("#reason", .s ("meta".data))]
        5490 1000 ("tile_7.png".data) ("Accepted".data) = .ok rec ∧
      pyLookup rec "#row" = some (.i 1) ∧
      pyLookup rec "#column" = some (.i 1) ∧
      pyLookup rec "#reason" = some (.s ("meta".data)) ∧
      pyLookup rec "cx" = some (.i 1) := by
  obtain ⟨rec, hok, hform, hrow, hcol⟩ := build_dict_precedence
    (fun _ => (1000, 1000))
    (fun a b _ _ => [("cx", .i a), ("cy", .i b)])
    [("#reason", .s ("meta".data))]
    5490 1000 ("tile_7.png".data) ("Accepted".data) 1 1
    (by rfl) (by decide) (by decide)
  refine ⟨rec, hok, ?_, ?_, ?_, ?_⟩
  · exact (hrow (by decide) (by decide)).trans (by rfl)
  · exact (hcol (by decide) (by decide)).trans (by rfl)
  · exact (hform "#reason").trans (by rfl)
  · exact (hform "cx").trans (by rfl)

theorem keysOf_baseDict (filename reason : List Char) (row col w h : Int) :
    keysOf (baseDict filename reason row col w h) =
      ["#filename1", "#filename2", "#reason", "#row", "#column",
       "#width", "#height"] := rfl

/-- C6: within one run (one metadata mapping, one coordinate-mapper
output schema) every record built by `build_dict_for_csv` has the same
key set, whatever tile and reason it is built for. -/
theorem build_dict_schema_stable (dims : List Char → Int × Int)
    (coord : Int → Int → Int → Int → Record) (metadata : Record)
    (width grid_size : Int) (CK : List String)
    (hCK : ∀ a b w h : Int, keysOf (coord a b w h) = CK)
    (f₁ f₂ reason₁ reason₂ : List Char) (r₁ c₁ r₂ c₂ : Int)
    (h1 : index_to_location f₁ width grid_size = .ok (r₁, c₁))
    (h2 : index_to_location f₂ width grid_size = .ok (r₂, c₂)) :
    ∃ rec₁ rec₂,
      build_dict_for_csv dims coord metadata width grid_size
        f₁ reason₁ = .ok rec₁ ∧
      build_dict_for_csv dims coord metadata width grid_size
        f₂ reason₂ = .ok rec₂ ∧
      keysOf rec₁ = keysOf rec₂ := by
  refine ⟨dictUpdate
      (dictUpdate (baseDict f₁ reason₁ r₁ c₁ (dims f₁).1 (dims f₁).2)
        (coord r₁ c₁ (dims f₁).1 (dims f₁).2)) metadata,
    dictUpdate
      (dictUpdate (baseDict f₂ reason₂ r₂ c₂ (dims f₂).1 (dims f₂).2)
        (coord r₂ c₂ (dims f₂).1 (dims f₂).2)) metadata,
    ?_, ?_, ?_⟩
  case _ =>
    simp only [build_dict_for_csv, h1]
  case _ =>
    simp only [build_dict_for_csv, h2]
  case _ =>
    rw [keysOf_dictUpdate, keysOf_dictUpdate, keysOf_dictUpdate,
      keysOf_dictUpdate, hCK, hCK, keysOf_baseDict, keysOf_baseDict]

/-- Witness for C6: two tiles of the same run — with different
filenames, reasons and tile dimensions — produce records with identical
key sets. -/
theorem build_dict_schema_stable_witness :
    ∃ rec₁ rec₂,
      build_dict_for_csv
        (fun f => if '0' ∈ f then ((1000 : Int), (1000 : Int)) else (490, 490))
        (fun a b _ _ => [("cx", .i a), ("cy", .i b)])
        [("m", .s ("v".data))]
        5490 1000 ("tile_0.png".data) ("Accepted".data) = .ok rec₁ ∧
      build_dict_for_csv
        (fun f => if '0' ∈ f then ((1000 : Int), (1000 : Int)) else (490, 490))
        (fun a b _ _ => [("cx", .i a), ("cy", .i b)])
        [("m", .s ("v".data))]
        5490 1000 ("tile_7.png".data) ("Rejected".data) = .ok rec₂ ∧
      keysOf rec₁ = keysOf rec₂ := by
  have hstable := build_dict_schema_stable
    (fun f => if '0' ∈ f then ((1000 : Int), (1000 : Int)) else (490, 490))
    (fun a b _ _ => [("cx", .i a), ("cy", .i b)])
    [("m", .s ("v".data))] 5490 1000 ["cx", "cy"]
    (fun _ _ _ _ => rfl)
    ("tile_0.png".data) ("tile_7.png".data)
    ("Accepted".data) ("Rejected".data) 0 0 1 1 (by rfl) (by rfl)
  obtain ⟨rec₁, rec₂, hok₁, hok₂, hkeys⟩ := hstable
  exact ⟨rec₁, rec₂, hok₁, hok₂, hkeys⟩

theorem accept_loop_ok (bd : List Char → Except PyError Record) :
    ∀ (fs : List (List Char)) (evs : List Event) (recs : List Record),
      accept_loop bd fs = .ok (evs, recs) →
      evs = fs.map Event.acceptTile ∧ fs.mapM bd = .ok recs ∧
      recs.length = fs.length := by
  intro fs
  induction fs with
  | nil =>
    intro evs recs h
    simp only [accept_loop, Except.ok.injEq, Prod.mk.injEq] at h
    obtain ⟨h1, h2⟩ := h
    subst h1
    subst h2
    exact ⟨rfl, rfl, rfl⟩
  | cons f fs ih =>
    intro evs recs h
    simp only [accept_loop] at h
    cases hbd : bd f with
    | error e =>
      rw [hbd] at h
      exact absurd h (by simp)
    | ok r =>
      rw [hbd] at h
      cases hal : accept_loop bd fs with
      | error e =>
        rw [hal] at h
        exact absurd h (by simp)
      | ok pr =>
        rw [hal] at h
        simp only [Except.ok.injEq, Prod.mk.injEq] at h
        obtain ⟨he, hr⟩ := h
        obtain ⟨h1, h2, h3⟩ := ih pr.1 pr.2 (by rw [hal])
        refine ⟨?_, ?_, ?_⟩
        · rw [← he, h1, List.map_cons]
        · rw [List.mapM_cons, hbd, h2, ← hr]
          rfl
        · rw [← hr]
          simp [h3]

theorem filterMap_acceptTile (r : List (List Char)) :
    (r.map Event.acceptTile).filterMap extractTile = r := by
  induction r with
  | nil => rfl
  | cons f fs ih => simp [List.filterMap_cons, extractTile, ih]

theorem filterMap_main_events (cfg : MainConfig) (env : Env)
    (aevs : List Event) (accepts : List Record) :
    (main_events cfg env aevs accepts).filterMap extractTile =
      aevs.filterMap extractTile := by
  unfold main_events
  simp only [List.filterMap_append]
  cases cfg.REBUILD <;> cases env.scratch_exists <;>
    cases cfg.ASSEMBLE_IMAGE <;> cases cfg.SLICE_IMAGE <;>
    cases cfg.BUILD_MANIFEST <;> cases cfg.ANNOTATE <;>
    simp [extractTile]

/-- C4: with the reject-tiles stage enabled, a completed `main` run
routes every tile of the scene listing to `accept_tile`, in listing
order, and appends exactly one record per tile, built with reason
`"Accepted"` — no rule-engine verdict is consulted; with the manifest
stage also enabled, the manifest writer receives exactly the
accepted-record list, whose row count equals the number of Accepted
tiles. -/
theorem main_reject_manifest (cfg : MainConfig) (env : Env)
    (evs : List Event) (accepts : List Record)
    (hr : cfg.REJECT_TILES = true)
    (hrun : main_run cfg env = .ok (evs, accepts)) :
    evs.filterMap extractTile = env.retained_tiles ∧
    env.retained_tiles.mapM (fun f => build_dict_for_csv env.tile_dims
      env.coord env.metadata env.scene_width cfg.GRID_SIZE f
      acceptedReason) = .ok accepts ∧
    accepts.length = env.retained_tiles.length ∧
    (cfg.BUILD_MANIFEST = true → Event.writeManifest accepts ∈ evs) := by
  unfold main_run at hrun
  rw [if_pos hr] at hrun
  cases hal : accept_loop (fun f => build_dict_for_csv env.tile_dims
      env.coord env.metadata env.scene_width cfg.GRID_SIZE f
      acceptedReason) env.retained_tiles with
  | error e =>
    rw [hal] at hrun
    exact absurd hrun (by simp)
  | ok pr =>
    rw [hal] at hrun
    simp only [Except.ok.injEq, Prod.mk.injEq] at hrun
    obtain ⟨hev, hacc⟩ := hrun
    obtain ⟨h1, h2, h3⟩ := accept_loop_ok _ env.retained_tiles pr.1 pr.2
      (by rw [hal])
    subst hacc
    refine ⟨?_, ?_, ?_, ?_⟩
    · rw [← hev, filterMap_main_events, h1, filterMap_acceptTile]
    · exact h2
    · exact h3
    · intro hb
      rw [← hev]
      unfold main_events
      rw [if_pos hb]
      simp

/-- Witness for C4: a run with one listed tile routes it to
`accept_tile`, builds one Accepted record, and hands the one-row list
to the manifest writer. -/
theorem main_reject_manifest_witness :
    main_run cfgRejectManifest envOneTile = .ok (evsOneTile, [recOneTile]) ∧
    evsOneTile.filterMap extractTile = envOneTile.retained_tiles ∧
    List.length [recOneTile] = envOneTile.retained_tiles.length ∧
    Event.writeManifest [recOneTile] ∈ evsOneTile := by
  have h := main_reject_manifest cfgRejectManifest envOneTile evsOneTile
    [recOneTile] rfl (by rfl)
  exact ⟨by rfl, h.1, h.2.2.1, h.2.2.2 rfl⟩

/-- C9 counterexample: with the scratch directory present, the rebuild
flag false, but the slice stage enabled, `main` still calls the
external slicing collaborator `prepare_tiles` — scratch reuse does not
suppress it. -/
theorem main_slice_without_rebuild_counterexample :
    cfgSliceOnly.REBUILD = false ∧ envScratch.scratch_exists = true ∧
    main_run cfgSliceOnly envScratch =
      .ok ([Event.buildOutput, Event.prepareTiles,
            Event.maybeCleanScratch], []) ∧
    Event.prepareTiles ∈
      [Event.buildOutput, Event.prepareTiles, Event.maybeCleanScratch] :=
  ⟨rfl, rfl, by rfl, by simp⟩

/-- C9 (amended): in a completed run with the scratch directory present
and the rebuild flag false, `build_scratch` is not invoked (prior
artifacts are reused); `prepare_tiles` is not invoked provided the
slice stage is disabled — its gate is the `SLICE_IMAGE` flag alone, not
scratch reuse. -/
theorem main_scratch_reuse (cfg : MainConfig) (env : Env)
    (evs : List Event) (accepts : List Record)
    (hreb : cfg.REBUILD = false) (hex : env.scratch_exists = true)
    (hrun : main_run cfg env = .ok (evs, accepts)) :
    Event.buildScratch ∉ evs ∧
    (cfg.SLICE_IMAGE = false → Event.prepareTiles ∉ evs) := by
  unfold main_run at hrun
  have hinv : ∃ (aevs : List Event) (acc : List Record),
      (aevs = [] ∨ ∃ r, aevs = List.map Event.acceptTile r) ∧
      evs = main_events cfg env aevs acc := by
    by_cases hrt : cfg.REJECT_TILES = true
    · rw [if_pos hrt] at hrun
      cases hal : accept_loop (fun f => build_dict_for_csv env.tile_dims
          env.coord env.metadata env.scene_width cfg.GRID_SIZE f
          acceptedReason) env.retained_tiles with
      | error e =>
        rw [hal] at hrun
        exact absurd hrun (by simp)
      | ok pr =>
        rw [hal] at hrun
        simp only [Except.ok.injEq, Prod.mk.injEq] at hrun
        exact ⟨pr.1, pr.2,
          Or.inr ⟨env.retained_tiles,
            (accept_loop_ok _ env.retained_tiles pr.1 pr.2
              (by rw [hal])).1⟩,
          hrun.1.symm⟩
    · rw [if_neg hrt] at hrun
      simp only [Except.ok.injEq, Prod.mk.injEq] at hrun
      exact ⟨[], [], Or.inl rfl, hrun.1.symm⟩
  obtain ⟨aevs, acc, haevs, hev⟩ := hinv
  subst hev
  constructor
  · unfold main_events
    cases cfg.ASSEMBLE_IMAGE <;> cases cfg.SLICE_IMAGE <;>
      cases cfg.BUILD_MANIFEST <;> cases cfg.ANNOTATE <;>
      rcases haevs with rfl | ⟨r, rfl⟩ <;>
      simp [hreb, hex, List.mem_map]
  · intro hsl
    unfold main_events
    cases cfg.ASSEMBLE_IMAGE <;> cases cfg.BUILD_MANIFEST <;>
      cases cfg.ANNOTATE <;>
      rcases haevs with rfl | ⟨r, rfl⟩ <;>
      simp [hreb, hex, hsl, List.mem_map]

/-- Witness for the amended C9: with every stage disabled, a scratch
directory present and rebuild off, the run neither rebuilds scratch nor
slices. -/
theorem main_scratch_reuse_witness :
    main_run cfgAllOff envScratch =
      .ok ([Event.buildOutput, Event.maybeCleanScratch], []) ∧
    Event.buildScratch ∉ [Event.buildOutput, Event.maybeCleanScratch] ∧
    Event.prepareTiles ∉ [Event.buildOutput, Event.maybeCleanScratch] := by
  have h := main_scratch_reuse cfgAllOff envScratch
    [Event.buildOutput, Event.maybeCleanScratch] [] rfl rfl (by rfl)
  exact ⟨by rfl, h.1, h.2 rfl⟩
